import Mathlib

/-!
# gofibervalidator: a shallow embedding

The Go package `gofibervalidator` (files `gofibervalidator.go` and `helpers.go`)
is embedded as pure Lean functions.

* Package-level variables (`validatorInstance`, `once`) and the engine objects
  they point to are an explicit state `Globals` that `New` passes along.
* A `*validator.Validate` pointer is an `Option Nat`: `none` is the nil pointer,
  `some r` the address `r` of an engine object in `Globals.heap`.
* An `interface{}` value is an `Option Any`: `none` is the nil interface.
* A Go panic is the `error` side of `Except Fault`.
* `c.Next()` is a continuation handed to the handler.
-/

namespace GoFiberValidator

/-! ## Third-party collaborators -/

/-- Address of a `validator.Validate` object. -/
abbrev EngineRef := Nat

/-- A `validator.Func`, identified by the function value registered. -/
abbrev Func := Nat

/-- Dynamic (non-nil) values of Go's `interface{}` that the request-scoped store can
hold: a typed `*validator.Validate` pointer (possibly a nil pointer) or a value
of some other type. -/
inductive Any where
  | engine (p : Option EngineRef)
  | str (s : String)
  | int (n : Int)
  deriving DecidableEq, Repr

/-- Modelled from the spec: the request-scoped key-value store of the web
framework ("get/set by string key, arbitrary value type"), which is not part of
the repository sources. Entries are kept in insertion order. -/
abbrev UserData := List (String × Any)

/-- Modelled from the spec: reading the store by key; `none` is Go's nil. -/
def UserData.get : UserData → String → Option Any
  | [], _ => none
  | (k, v) :: rest, key => if k = key then some v else UserData.get rest key

/-- Modelled from the spec: writing the store by key; an existing entry is
overwritten in place, a new one is appended. -/
def UserData.set : UserData → String → Any → UserData
  | [], key, value => [(key, value)]
  | (k, v) :: rest, key, value =>
    if k = key then (k, value) :: rest else (k, v) :: UserData.set rest key value

/-- The part of `fiber.Ctx` the package touches: the request line and the
request-scoped store. -/
structure Ctx where
  method : String
  path : String
  locals : UserData
  deriving DecidableEq, Repr

/-- Modelled from the spec: the framework method `c.Locals(key, value...)`, which
is not part of the repository sources. Without a value it reads the store;
with a value it writes the store and returns the value. -/
def Ctx.Locals (c : Ctx) (key : String) (value : List Any) : Option Any × Ctx :=
  match value with
  | [] => (c.locals.get key, c)
  | v :: _ => (some v, { c with locals := c.locals.set key v })

/-- One `validator.Validate` object, as far as the package can change it: the
custom validations registered on it, in registration order. -/
structure Validate where
  customs : List (String × Func)
  deriving DecidableEq, Repr

/-- The engine objects of the process, by address. -/
abbrev Heap := List Validate

/-- Modelled from the spec: `validator.New()` of the validation library, which is
not part of the repository sources: a fresh engine without custom rules, at a
new address. -/
def validatorNew (h : Heap) : Heap × EngineRef :=
  (h ++ [⟨[]⟩], h.length)

/-- Update of the object at address `r`. -/
def Heap.update : Heap → EngineRef → (Validate → Validate) → Heap
  | [], _, _ => []
  | v :: rest, 0, f => f v :: rest
  | v :: rest, r + 1, f => v :: Heap.update rest r f

/-- Modelled from the spec: `(*validator.Validate).RegisterValidation(tag, fn)`
("register(tagName, predicateFunction)"), which is not part of the repository
sources: the rule is recorded on the engine object. -/
def RegisterValidation (h : Heap) (r : EngineRef) (tag : String) (fn : Func) : Heap :=
  h.update r (fun v => ⟨v.customs ++ [(tag, fn)]⟩)

/-- The custom validations recorded on the object at address `r`. -/
def Heap.customsOf (h : Heap) (r : EngineRef) : Option (List (String × Func)) :=
  (h[r]?).map (fun v => v.customs)

/-- One `validator.FieldError`: what `Field()`, `Tag()` and `Param()` return. -/
structure FieldError where
  Field : String
  Tag : String
  Param : String
  deriving DecidableEq, Repr

/-- A non-nil `error` returned by `(*validator.Validate).Struct`: either the
list `validator.ValidationErrors` or a `*validator.InvalidValidationError`. -/
inductive StructError where
  | ValidationErrors (errs : List FieldError)
  | InvalidValidationError
  deriving DecidableEq, Repr

/-- Run-time faults (Go panics). -/
inductive Fault where
  | typeAssertion
  deriving DecidableEq, Repr

/-! ## gofibervalidator.go -/

/-- The middleware configuration `Config`. -/
structure Config where
  Next : Option (Ctx → Bool)
  Validator : Option EngineRef
  ContextKey : String
  CustomValidations : Option (List (String × Func))

/-- The default configuration `ConfigDefault`. -/
def ConfigDefault : Config :=
  { Next := none, Validator := none, ContextKey := "validator", CustomValidations := none }

/-- Package-level state: the singleton pointer `validatorInstance`, whether
`once` has fired, and the engine objects. -/
structure Globals where
  validatorInstance : Option EngineRef
  once : Bool
  heap : Heap
  deriving DecidableEq, Repr

/-- The state of a fresh process (also what the test helper `resetSingleton`
restores): `validatorInstance = nil` and an unfired `once`. -/
def Globals.uninitialised (heap : Heap) : Globals :=
  { validatorInstance := none, once := false, heap := heap }

/-- The method `sync.Once.Do`: `f` runs only if `once` has not fired yet. -/
def onceDo (g : Globals) (f : Globals → Globals) : Globals :=
  if g.once then g else { f g with once := true }

/-- The loop `for tag, fn := range cfg.CustomValidations` in `New`, over the
entries of the map in the order the runtime enumerates them. -/
def registerCustom (g : Globals) (m : List (String × Func)) : Globals :=
  m.foldl
    (fun g kv =>
      match g.validatorInstance with
      | some r => { g with heap := RegisterValidation g.heap r kv.1 kv.2 }
      | none => g)
    g

/-- The function literal passed to `once.Do` in `New`. -/
def initSingleton (cfg : Config) (g : Globals) : Globals :=
  let g1 : Globals :=
    match cfg.Validator with
    | some v => { g with validatorInstance := some v }
    | none =>
      let (h, r) := validatorNew g.heap
      { g with validatorInstance := some r, heap := h }
  match cfg.CustomValidations with
  | some m => registerCustom g1 m
  | none => g1

/-- The configuration `cfg` that `New` resolves from its variadic argument. -/
def resolveConfig (config : List Config) : Config :=
  match config with
  | [] => ConfigDefault
  | c0 :: _ =>
    if c0.ContextKey = "" then { c0 with ContextKey := ConfigDefault.ContextKey } else c0

/-- A `fiber.Handler`: it runs against the package state of the moment, receives
the rest of the chain (`c.Next`) and the request context. -/
abbrev Handler := Globals → (Ctx → Ctx × Option String) → Ctx → Ctx × Option String

/-- The function literal returned by `New`, closed over the resolved `cfg`. -/
def middleware (cfg : Config) : Handler := fun g next c =>
  if (match cfg.Next with
      | some skip => skip c
      | none => false) then
    next c
  else
    let c1 := (c.Locals cfg.ContextKey [Any.engine g.validatorInstance]).2
    next c1

/-- The factory `New(config ...Config)`: the new package state and the handler. -/
def New (g : Globals) (config : List Config) : Globals × Handler :=
  let cfg := resolveConfig config
  (onceDo g (initSingleton cfg), middleware cfg)

/-- Successive calls `New(c)` for each configuration of a list, in order: the
final package state and the handlers returned, in call order. -/
def NewSeq : Globals → List Config → Globals × List Handler
  | g, [] => (g, [])
  | g, c :: cs =>
    let r := New g [c]
    let rest := NewSeq r.1 cs
    (rest.1, r.2 :: rest.2)

/-- The accessor `GetValidator(c, key...)`: the pointer found (or nil), or the
fault of the type assertion, together with the context after the call. -/
def GetValidator (c : Ctx) (key : List String) : Except Fault (Option EngineRef) × Ctx :=
  let contextKey :=
    match key with
    | [] => "validator"
    | k0 :: _ => k0
  let r := c.Locals contextKey []
  match r.1 with
  | some v =>
    match v with
    | Any.engine p => (Except.ok p, r.2)
    | _ => (Except.error Fault.typeAssertion, r.2)
  | none => (Except.ok none, r.2)

/-! ## helpers.go -/

/-- The record `ErrorResponse`. -/
structure ErrorResponse where
  Field : String
  Message : String
  Tag : String
  deriving DecidableEq, Repr

/-- The formatter `getErrorMessage`: the `switch` on `fe.Tag()`. -/
def getErrorMessage (fe : FieldError) : String :=
  if fe.Tag = "required" then "This field is required"
  else if fe.Tag = "email" then "Invalid email format"
  else if fe.Tag = "min" then "Value is too short (min: " ++ fe.Param ++ ")"
  else if fe.Tag = "max" then "Value is too long (max: " ++ fe.Param ++ ")"
  else if fe.Tag = "gte" then "Value must be greater than or equal to " ++ fe.Param
  else if fe.Tag = "lte" then "Value must be less than or equal to " ++ fe.Param
  else if fe.Tag = "len" then "Value must have exactly " ++ fe.Param ++ " characters"
  else if fe.Tag = "url" then "Invalid URL format"
  else if fe.Tag = "uuid" then "Invalid UUID format"
  else "Invalid value for " ++ fe.Field

/-- The loop `for _, err := range err.(validator.ValidationErrors)` of
`ValidateStruct`, appending one element per violation to `errors`. -/
def collectErrors (errors : List ErrorResponse) : List FieldError → List ErrorResponse
  | [] => errors
  | err :: rest =>
    let element : ErrorResponse :=
      { Field := err.Field, Tag := err.Tag, Message := getErrorMessage err }
    collectErrors (errors ++ [element]) rest

/-- The helper `ValidateStruct(c, s)`. The engine method `v.Struct(s)` belongs to
the validation library and is the parameter `Struct`: for the engine at an
address and a candidate value it gives the `error` returned (`none` is nil).
The nil slice and the empty slice are both the empty list. -/
def ValidateStruct {S : Type} (Struct : EngineRef → S → Option StructError)
    (c : Ctx) (s : S) : Except Fault (List ErrorResponse) :=
  match (GetValidator c []).1 with
  | Except.error f => Except.error f
  | Except.ok none => Except.ok []
  | Except.ok (some v) =>
    let errors : List ErrorResponse := []
    match Struct v s with
    | none => Except.ok errors
    | some (StructError.ValidationErrors errs) => Except.ok (collectErrors errors errs)
    | some StructError.InvalidValidationError => Except.error Fault.typeAssertion

/-! ## Concrete data used in examples -/

/-- Candidate values passed to `ValidateStruct` in the examples: Go's `nil`, a
value that is not a struct, or the `User` struct of the example application
reduced to its `Age` field. -/
inductive Candidate where
  | nil
  | nonStruct (n : Int)
  | user (age : Int)
  deriving DecidableEq, Repr

/-- An engine behaviour for the examples: bad values give an
`InvalidValidationError`, a `User` is checked against `gte=18`. -/
def sampleStruct : EngineRef → Candidate → Option StructError
  | _, Candidate.nil => some StructError.InvalidValidationError
  | _, Candidate.nonStruct _ => some StructError.InvalidValidationError
  | _, Candidate.user age =>
    if 18 ≤ age then none
    else some (StructError.ValidationErrors [⟨"Age", "gte", "18"⟩])

/-- A request context with an empty store. -/
def emptyCtx : Ctx := { method := "GET", path := "/", locals := [] }

/-- The first configuration used for the singleton: the engine at address 0 as
override, with the custom rule "even". -/
def firstConfig : Config :=
  { Next := none, Validator := some 0, ContextKey := "validator",
    CustomValidations := some [("even", 1)] }

/-- The second configuration used for the singleton: another override, another
key and another custom rule. -/
def secondConfig : Config :=
  { Next := none, Validator := some 1, ContextKey := "myValidator",
    CustomValidations := some [("is_alice", 2)] }

/-! ## The request-scoped store -/

theorem UserData.get_set_same (d : UserData) (key : String) (value : Any) :
    (d.set key value).get key = some value := by
  induction d with
  | nil => simp [UserData.set, UserData.get]
  | cons kv rest ih =>
    obtain ⟨k, v⟩ := kv
    by_cases hk : k = key
    · simp [UserData.set, UserData.get, hk]
    · simp [UserData.set, UserData.get, hk, ih]

theorem UserData.get_set_other (d : UserData) (key k' : String) (value : Any)
    (hne : k' ≠ key) : (d.set key value).get k' = d.get k' := by
  induction d with
  | nil =>
    have hne' : ¬ key = k' := fun h => hne h.symm
    simp [UserData.set, UserData.get, hne']
  | cons kv rest ih =>
    obtain ⟨k, v⟩ := kv
    by_cases hk : k = key
    · subst hk
      have hne' : ¬ k = k' := fun h => hne h.symm
      simp [UserData.set, UserData.get, hne']
    · by_cases hk' : k = k'
      · subst hk'
        simp [UserData.set, UserData.get, hne]
      · simp [UserData.set, UserData.get, hk, hk', ih]

/-! ## The handler returned by `New` -/

theorem New_handler (g : Globals) (config : List Config) :
    (New g config).2 = middleware (resolveConfig config) := rfl

theorem resolveConfig_Next (config : Config) :
    (resolveConfig [config]).Next = config.Next := by
  simp only [resolveConfig]
  split <;> rfl

theorem resolveConfig_ContextKey (config : Config) :
    (resolveConfig [config]).ContextKey =
      if config.ContextKey = "" then "validator" else config.ContextKey := by
  simp only [resolveConfig]
  split <;> rfl

/-- C2: when the skip predicate `Next` is present and true on the request, the
handler returned by `New` hands the unchanged context to the next stage; with
nothing after it in the chain the store is exactly the store before the
handler, so a key without a value still has none. -/
theorem New_skip_leaves_store (g g' : Globals) (config : Config) (skip : Ctx → Bool)
    (next : Ctx → Ctx × Option String) (c : Ctx)
    (hNext : config.Next = some skip) (hskip : skip c = true) :
    (New g [config]).2 g' next c = next c ∧
    ((New g [config]).2 g' (fun x => (x, none)) c).1.locals = c.locals ∧
    (∀ key, c.locals.get key = none →
      ((New g [config]).2 g' (fun x => (x, none)) c).1.locals.get key = none) := by
  have h : ∀ nxt : Ctx → Ctx × Option String, (New g [config]).2 g' nxt c = nxt c := by
    intro nxt
    rw [New_handler]
    simp [middleware, resolveConfig_Next, hNext, hskip]
  refine ⟨h next, ?_, ?_⟩
  · rw [h]
  · intro key hkey
    rw [h]
    exact hkey

/-- Witness of C2: the skip predicate of the test `TestNew_NextSkipsMiddleware`
on an empty store. -/
theorem New_skip_leaves_store_witness :
    (New (Globals.uninitialised []) [{ ConfigDefault with Next := some (fun _ => true) }]).2
        (Globals.uninitialised []) (fun x => (x, none)) emptyCtx = (emptyCtx, none) ∧
    ((New (Globals.uninitialised []) [{ ConfigDefault with Next := some (fun _ => true) }]).2
        (Globals.uninitialised []) (fun x => (x, none)) emptyCtx).1.locals = emptyCtx.locals ∧
    (∀ key, emptyCtx.locals.get key = none →
      ((New (Globals.uninitialised []) [{ ConfigDefault with Next := some (fun _ => true) }]).2
        (Globals.uninitialised []) (fun x => (x, none)) emptyCtx).1.locals.get key = none) :=
  New_skip_leaves_store (Globals.uninitialised []) (Globals.uninitialised [])
    { ConfigDefault with Next := some (fun _ => true) } (fun _ => true)
    (fun x => (x, none)) emptyCtx rfl rfl

/-- C4: `New` with an empty `ContextKey` is `New` with the key "validator": the
same package state and the same handler, hence the same resulting context on
every request and store; and a non-empty `ContextKey` is the key the handler
writes. -/
theorem New_empty_key_is_default (g : Globals) (c : Config) :
    New g [{ c with ContextKey := "" }] = New g [{ c with ContextKey := "validator" }] ∧
    (∀ (g' : Globals) (next : Ctx → Ctx × Option String) (ctx : Ctx),
      (New g [{ c with ContextKey := "" }]).2 g' next ctx
        = (New g [{ c with ContextKey := "validator" }]).2 g' next ctx) ∧
    (c.ContextKey ≠ "" →
      ∀ (g' : Globals) (next : Ctx → Ctx × Option String) (ctx : Ctx),
        (New g [c]).2 g' next ctx =
          if (match c.Next with
              | some skip => skip ctx
              | none => false) then next ctx
          else next (Ctx.mk ctx.method ctx.path
            (ctx.locals.set c.ContextKey (Any.engine g'.validatorInstance)))) := by
  have hcfg : resolveConfig [{ c with ContextKey := "" }]
      = resolveConfig [{ c with ContextKey := "validator" }] := by
    simp [resolveConfig, ConfigDefault]
  have hnew : New g [{ c with ContextKey := "" }]
      = New g [{ c with ContextKey := "validator" }] := by
    simp only [New, hcfg]
  refine ⟨hnew, ?_, ?_⟩
  · intro g' next ctx
    rw [hnew]
  · intro hkey g' next ctx
    have hres : resolveConfig [c] = c := by
      simp [resolveConfig, hkey]
    rw [New_handler, hres]
    simp only [middleware, Ctx.Locals]

/-- Witness of C4: the non-empty key "myValidator" is the key written. -/
theorem New_empty_key_is_default_witness :
    (New (Globals.uninitialised []) [{ ConfigDefault with ContextKey := "myValidator" }]).2
        (Globals.mk (some 0) true [⟨[]⟩]) (fun x => (x, none)) emptyCtx
      = (Ctx.mk "GET" "/" [("myValidator", Any.engine (some 0))], none) := by
  have h := (New_empty_key_is_default (Globals.uninitialised [])
    { ConfigDefault with ContextKey := "myValidator" }).2.2 (by decide)
    (Globals.mk (some 0) true [⟨[]⟩]) (fun x => (x, none)) emptyCtx
  rw [h]
  rfl

/-! ## `GetValidator` -/

/-- C5: `GetValidator` looks up the key given (or "validator" when none is
given); it returns the engine pointer stored there, returns nil when nothing
is stored there, and leaves the context, store included, as it was. -/
theorem GetValidator_lookup (c : Ctx) (key : List String) :
    (∀ p, c.locals.get (key.headD "validator") = some (Any.engine p) →
      (GetValidator c key).1 = Except.ok p) ∧
    (c.locals.get (key.headD "validator") = none →
      (GetValidator c key).1 = Except.ok none) ∧
    (GetValidator c key).2 = c := by
  have hk : (match key with
      | [] => "validator"
      | k0 :: _ => k0) = key.headD "validator" := by
    cases key <;> rfl
  refine ⟨?_, ?_, ?_⟩
  · intro p hp
    simp only [GetValidator, Ctx.Locals, hk, hp]
  · intro hp
    simp only [GetValidator, Ctx.Locals, hk, hp]
  · simp only [GetValidator, Ctx.Locals, hk]
    split
    · split <;> rfl
    · rfl

/-- Witness of C5: an engine stored under "myValidator" is found under that key
and not under the default key. -/
theorem GetValidator_lookup_witness :
    (GetValidator (Ctx.mk "GET" "/" [("myValidator", Any.engine (some 0))]) ["myValidator"]).1
      = Except.ok (some 0) ∧
    (GetValidator (Ctx.mk "GET" "/" [("myValidator", Any.engine (some 0))]) []).1
      = Except.ok none :=
  ⟨(GetValidator_lookup (Ctx.mk "GET" "/" [("myValidator", Any.engine (some 0))])
      ["myValidator"]).1 (some 0) (by decide),
   (GetValidator_lookup (Ctx.mk "GET" "/" [("myValidator", Any.engine (some 0))])
      []).2.1 (by decide)⟩

/-- Counterexample to C6: with the string "hello" stored under "validator",
`GetValidator` does not return nil: its type assertion faults. -/
theorem GetValidator_string_faults :
    (GetValidator (Ctx.mk "GET" "/" [("validator", Any.str "hello")]) []).1
      = Except.error Fault.typeAssertion ∧
    (GetValidator (Ctx.mk "GET" "/" [("validator", Any.str "hello")]) []).1
      ≠ Except.ok none := by
  refine ⟨rfl, ?_⟩
  intro h
  cases h

/-- C6, amended: when the value stored under the looked-up key is not an engine
pointer, `GetValidator` faults on its type assertion; it returns nil exactly
when nothing is stored under the key or the pointer stored there is nil. -/
theorem GetValidator_foreign_value (c : Ctx) (key : List String) :
    (∀ v, c.locals.get (key.headD "validator") = some v → (∀ p, v ≠ Any.engine p) →
      (GetValidator c key).1 = Except.error Fault.typeAssertion) ∧
    ((GetValidator c key).1 = Except.ok none ↔
      (c.locals.get (key.headD "validator") = none ∨
       c.locals.get (key.headD "validator") = some (Any.engine none))) := by
  have hk : (match key with
      | [] => "validator"
      | k0 :: _ => k0) = key.headD "validator" := by
    cases key <;> rfl
  refine ⟨?_, ?_⟩
  · intro v hv hne
    cases v with
    | engine p => exact absurd rfl (hne p)
    | str s => simp only [GetValidator, Ctx.Locals, hk, hv]
    | int n => simp only [GetValidator, Ctx.Locals, hk, hv]
  · cases hget : c.locals.get (key.headD "validator") with
    | none =>
      simp only [GetValidator, Ctx.Locals, hk, hget]
      simp
    | some v =>
      cases v with
      | engine p =>
        simp only [GetValidator, Ctx.Locals, hk, hget]
        simp
      | str s =>
        simp only [GetValidator, Ctx.Locals, hk, hget]
        simp
      | int n =>
        simp only [GetValidator, Ctx.Locals, hk, hget]
        simp

/-- Witness of C6, amended: an integer stored under "myValidator". -/
theorem GetValidator_foreign_value_witness :
    (GetValidator (Ctx.mk "GET" "/" [("myValidator", Any.int 7)]) ["myValidator"]).1
      = Except.error Fault.typeAssertion :=
  (GetValidator_foreign_value (Ctx.mk "GET" "/" [("myValidator", Any.int 7)])
    ["myValidator"]).1 (Any.int 7) (by decide) (by intro p h; cases h)

/-! ## `ValidateStruct` and `getErrorMessage` -/

theorem collectErrors_eq (errors : List ErrorResponse) (errs : List FieldError) :
    collectErrors errors errs
      = errors ++ errs.map (fun e => ErrorResponse.mk e.Field (getErrorMessage e) e.Tag) := by
  induction errs generalizing errors with
  | nil => simp [collectErrors]
  | cons e rest ih => simp [collectErrors, ih]

theorem GetValidator_default_engine (c : Ctx) (p : Option EngineRef)
    (h : c.locals.get "validator" = some (Any.engine p)) :
    (GetValidator c []).1 = Except.ok p := by
  simp only [GetValidator, Ctx.Locals, h]

theorem GetValidator_default_absent (c : Ctx) (h : c.locals.get "validator" = none) :
    (GetValidator c []).1 = Except.ok none := by
  simp only [GetValidator, Ctx.Locals, h]

/-- C7: with an engine stored under "validator", when the engine reports the
violations `vs` for the candidate, `ValidateStruct` returns one record per
violation, in the same order, the record of a violation carrying its field
name, its tag and `getErrorMessage` of it; when the engine reports success the
result is the empty list. -/
theorem ValidateStruct_records {S : Type} (Struct : EngineRef → S → Option StructError)
    (c : Ctx) (s : S) (v : EngineRef)
    (hv : c.locals.get "validator" = some (Any.engine (some v))) :
    (∀ vs, Struct v s = some (StructError.ValidationErrors vs) →
      ∃ rs, ValidateStruct Struct c s = Except.ok rs ∧
        rs.length = vs.length ∧
        (∀ i (hi : i < vs.length), ∃ r, rs[i]? = some r ∧
          r.Field = (vs.get ⟨i, hi⟩).Field ∧ r.Tag = (vs.get ⟨i, hi⟩).Tag ∧
          r.Message = getErrorMessage (vs.get ⟨i, hi⟩))) ∧
    (Struct v s = none → ValidateStruct Struct c s = Except.ok []) := by
  refine ⟨?_, ?_⟩
  · intro vs hvs
    refine ⟨vs.map (fun e => ErrorResponse.mk e.Field (getErrorMessage e) e.Tag), ?_, ?_, ?_⟩
    · simp only [ValidateStruct, GetValidator_default_engine c _ hv, hvs, collectErrors_eq]
      simp
    · simp
    · intro i hi
      refine ⟨ErrorResponse.mk (vs.get ⟨i, hi⟩).Field (getErrorMessage (vs.get ⟨i, hi⟩))
        (vs.get ⟨i, hi⟩).Tag, ?_, rfl, rfl, rfl⟩
      simp [List.getElem?_map, List.getElem?_eq_getElem hi]
  · intro hs
    simp only [ValidateStruct, GetValidator_default_engine c _ hv, hs]

/-- Witness of C7: a `User` of age 16 against the rule `gte=18`. -/
theorem ValidateStruct_records_witness :
    ∃ rs, ValidateStruct sampleStruct
        (Ctx.mk "POST" "/users" [("validator", Any.engine (some 0))]) (Candidate.user 16)
          = Except.ok rs ∧
      rs.length = [FieldError.mk "Age" "gte" "18"].length ∧
      (∀ i (hi : i < [FieldError.mk "Age" "gte" "18"].length), ∃ r, rs[i]? = some r ∧
        r.Field = ([FieldError.mk "Age" "gte" "18"].get ⟨i, hi⟩).Field ∧
        r.Tag = ([FieldError.mk "Age" "gte" "18"].get ⟨i, hi⟩).Tag ∧
        r.Message = getErrorMessage ([FieldError.mk "Age" "gte" "18"].get ⟨i, hi⟩)) :=
  (ValidateStruct_records sampleStruct
    (Ctx.mk "POST" "/users" [("validator", Any.engine (some 0))]) (Candidate.user 16) 0
    (by decide)).1 [FieldError.mk "Age" "gte" "18"] (by decide)

/-- C8: the message table of `getErrorMessage`, by tag, with the parameter
interpolated where the template has one and the generic message naming the
field for every other tag; a violation of `gte=18` has tag "gte" and a
message in which "18" occurs. -/
theorem getErrorMessage_table (f p : String) :
    getErrorMessage ⟨f, "required", p⟩ = "This field is required" ∧
    getErrorMessage ⟨f, "email", p⟩ = "Invalid email format" ∧
    getErrorMessage ⟨f, "min", p⟩ = "Value is too short (min: " ++ p ++ ")" ∧
    getErrorMessage ⟨f, "max", p⟩ = "Value is too long (max: " ++ p ++ ")" ∧
    getErrorMessage ⟨f, "gte", p⟩ = "Value must be greater than or equal to " ++ p ∧
    getErrorMessage ⟨f, "lte", p⟩ = "Value must be less than or equal to " ++ p ∧
    getErrorMessage ⟨f, "len", p⟩ = "Value must have exactly " ++ p ++ " characters" ∧
    getErrorMessage ⟨f, "url", p⟩ = "Invalid URL format" ∧
    getErrorMessage ⟨f, "uuid", p⟩ = "Invalid UUID format" ∧
    (∀ t : String,
      t ∉ ["required", "email", "min", "max", "gte", "lte", "len", "url", "uuid"] →
      getErrorMessage ⟨f, t, p⟩ = "Invalid value for " ++ f) ∧
    ((FieldError.mk f "gte" "18").Tag = "gte" ∧
      getErrorMessage ⟨f, "gte", "18"⟩ = "Value must be greater than or equal to 18" ∧
      ∃ pre post : String, getErrorMessage ⟨f, "gte", "18"⟩ = pre ++ "18" ++ post) := by
  refine ⟨?_, ?_, ?_, ?_, ?_, ?_, ?_, ?_, ?_, ?_, rfl, ?_, ?_⟩
  · simp [getErrorMessage]
  · simp [getErrorMessage]
  · simp [getErrorMessage]
  · simp [getErrorMessage]
  · simp [getErrorMessage]
  · simp [getErrorMessage]
  · simp [getErrorMessage]
  · simp [getErrorMessage]
  · simp [getErrorMessage]
  · intro t ht
    simp only [List.mem_cons, List.mem_singleton, List.not_mem_nil, or_false, not_or] at ht
    obtain ⟨h1, h2, h3, h4, h5, h6, h7, h8, h9⟩ := ht
    simp [getErrorMessage, h1, h2, h3, h4, h5, h6, h7, h8, h9]
  · simp [getErrorMessage]
  · refine ⟨"Value must be greater than or equal to ", "", ?_⟩
    simp [getErrorMessage]

/-- Witness of C8: the tag "alphanum" of the example application is not in the
table and gets the generic message. -/
theorem getErrorMessage_table_witness :
    getErrorMessage ⟨"Username", "alphanum", ""⟩ = "Invalid value for Username" :=
  (getErrorMessage_table "Username" "").2.2.2.2.2.2.2.2.2.1 "alphanum" (by decide)

theorem GetValidator_default_nil (c : Ctx)
    (h : c.locals.get "validator" = none ∨ c.locals.get "validator" = some (Any.engine none)) :
    (GetValidator c []).1 = Except.ok none := by
  rcases h with h | h
  · exact GetValidator_default_absent c h
  · exact GetValidator_default_engine c none h

/-- Counterexample to C9: the store holds the string "hello" under "validator",
so it holds no engine there; yet `ValidateStruct` does not return the empty
result for a valid `User`: the type assertion inside `GetValidator` faults. -/
theorem ValidateStruct_string_store_faults :
    (∀ p, (Ctx.mk "POST" "/users" [("validator", Any.str "hello")]).locals.get "validator"
      ≠ some (Any.engine p)) ∧
    ValidateStruct sampleStruct
      (Ctx.mk "POST" "/users" [("validator", Any.str "hello")]) (Candidate.user 30)
      = Except.error Fault.typeAssertion ∧
    ValidateStruct sampleStruct
      (Ctx.mk "POST" "/users" [("validator", Any.str "hello")]) (Candidate.user 30)
      ≠ Except.ok [] := by
  refine ⟨?_, rfl, ?_⟩
  · intro p h
    have h' : some (Any.str "hello") = some (Any.engine p) := h
    cases h'
  · intro h
    cases h

/-- C9, amended: when nothing is stored under the default key "validator" (or
the engine pointer stored there is nil), `ValidateStruct` returns the empty
result for every candidate, whatever any engine would report; in particular
after a middleware built with a context key other than "validator" (such as
"myValidator") ran on a store without a "validator" entry. When a value that
is not an engine pointer is stored under "validator", `ValidateStruct` faults
on the type assertion, again whatever any engine would report. -/
theorem ValidateStruct_without_engine {S : Type} (Struct : EngineRef → S → Option StructError)
    (c : Ctx) (s : S) :
    ((c.locals.get "validator" = none ∨ c.locals.get "validator" = some (Any.engine none)) →
      ValidateStruct Struct c s = Except.ok []) ∧
    (∀ (g g' : Globals) (config : Config),
      config.ContextKey ≠ "" → config.ContextKey ≠ "validator" →
      c.locals.get "validator" = none →
      ValidateStruct Struct ((New g [config]).2 g' (fun x => (x, none)) c).1 s
        = Except.ok []) ∧
    (∀ v, c.locals.get "validator" = some v → (∀ p, v ≠ Any.engine p) →
      ValidateStruct Struct c s = Except.error Fault.typeAssertion) := by
  have hmain : ∀ c' : Ctx, c'.locals.get "validator" = none →
      ValidateStruct Struct c' s = Except.ok [] := by
    intro c' h
    simp only [ValidateStruct, GetValidator_default_absent c' h]
  refine ⟨?_, ?_, ?_⟩
  · intro h
    simp only [ValidateStruct, GetValidator_default_nil c h]
  · intro g g' config hne hne' habs
    apply hmain
    rw [New_handler]
    simp only [middleware, resolveConfig_Next, resolveConfig_ContextKey, hne, if_false,
      Ctx.Locals]
    split
    · exact habs
    · show (c.locals.set _ _).get "validator" = none
      rw [UserData.get_set_other _ _ _ _ (fun h => hne' h.symm)]
      exact habs
  · intro v hv hne
    cases v with
    | engine p => exact absurd rfl (hne p)
    | str t => simp only [ValidateStruct, GetValidator, Ctx.Locals, hv]
    | int n => simp only [ValidateStruct, GetValidator, Ctx.Locals, hv]

/-- Witness of C9, amended: an empty store; the chain of the test
`TestGetValidator_CustomKey` with the package state that `New` left; and an
integer stored under "validator"; each with a `User` that violates `gte=18`. -/
theorem ValidateStruct_without_engine_witness :
    ValidateStruct sampleStruct emptyCtx (Candidate.user 16) = Except.ok [] ∧
    ValidateStruct sampleStruct
      ((New (Globals.uninitialised []) [{ ConfigDefault with ContextKey := "myValidator" }]).2
        (New (Globals.uninitialised []) [{ ConfigDefault with ContextKey := "myValidator" }]).1
        (fun x => (x, none)) emptyCtx).1
      (Candidate.user 16) = Except.ok [] ∧
    ValidateStruct sampleStruct (Ctx.mk "POST" "/users" [("validator", Any.int 7)])
      (Candidate.user 16) = Except.error Fault.typeAssertion :=
  ⟨(ValidateStruct_without_engine sampleStruct emptyCtx (Candidate.user 16)).1
      (Or.inl rfl),
   (ValidateStruct_without_engine sampleStruct emptyCtx (Candidate.user 16)).2.1
      (Globals.uninitialised [])
      (New (Globals.uninitialised []) [{ ConfigDefault with ContextKey := "myValidator" }]).1
      { ConfigDefault with ContextKey := "myValidator" } (by decide) (by decide) rfl,
   (ValidateStruct_without_engine sampleStruct
      (Ctx.mk "POST" "/users" [("validator", Any.int 7)]) (Candidate.user 16)).2.2
      (Any.int 7) rfl (by intro p h; cases h)⟩

/-- Counterexample to C10: with an engine stored under "validator" and the
candidate `nil`, for which the engine returns an `InvalidValidationError`,
`ValidateStruct` returns no list: the type assertion on the error faults. -/
theorem ValidateStruct_nil_candidate_faults :
    (Ctx.mk "POST" "/users" [("validator", Any.engine (some 0))]).locals.get "validator"
      = some (Any.engine (some 0)) ∧
    sampleStruct 0 Candidate.nil = some StructError.InvalidValidationError ∧
    ValidateStruct sampleStruct
      (Ctx.mk "POST" "/users" [("validator", Any.engine (some 0))]) Candidate.nil
      = Except.error Fault.typeAssertion ∧
    ¬ ∃ rs, ValidateStruct sampleStruct
      (Ctx.mk "POST" "/users" [("validator", Any.engine (some 0))]) Candidate.nil
      = Except.ok rs := by
  refine ⟨rfl, rfl, rfl, ?_⟩
  rintro ⟨rs, h⟩
  cases h

/-- C10, amended: with an engine stored under "validator", `ValidateStruct`
returns a list of records exactly when the engine reports success or a list of
field violations; when the engine returns an error that is not a list of field
violations, the type assertion on it faults. -/
theorem ValidateStruct_returns_iff {S : Type} (Struct : EngineRef → S → Option StructError)
    (c : Ctx) (s : S) (v : EngineRef)
    (hv : c.locals.get "validator" = some (Any.engine (some v))) :
    ((∃ rs, ValidateStruct Struct c s = Except.ok rs) ↔
      Struct v s ≠ some StructError.InvalidValidationError) ∧
    (Struct v s = some StructError.InvalidValidationError →
      ValidateStruct Struct c s = Except.error Fault.typeAssertion) := by
  have hg := GetValidator_default_engine c _ hv
  cases hs : Struct v s with
  | none =>
    simp only [ValidateStruct, hg, hs]
    simp
  | some e =>
    cases e with
    | ValidationErrors vs =>
      simp only [ValidateStruct, hg, hs]
      simp
    | InvalidValidationError =>
      simp only [ValidateStruct, hg, hs]
      simp

/-- Witness of C10, amended: a candidate that is not a struct. -/
theorem ValidateStruct_returns_iff_witness :
    ValidateStruct sampleStruct
      (Ctx.mk "POST" "/users" [("validator", Any.engine (some 0))]) (Candidate.nonStruct 3)
      = Except.error Fault.typeAssertion :=
  (ValidateStruct_returns_iff sampleStruct
    (Ctx.mk "POST" "/users" [("validator", Any.engine (some 0))]) (Candidate.nonStruct 3) 0
    (by decide)).2 rfl

/-! ## The singleton -/

theorem Heap.length_update (h : Heap) (r : EngineRef) (f : Validate → Validate) :
    (h.update r f).length = h.length := by
  induction h generalizing r with
  | nil => rfl
  | cons v rest ih =>
    cases r with
    | zero => rfl
    | succ r => simp [Heap.update, ih]

theorem Heap.getElem?_update_same (h : Heap) (r : EngineRef) (f : Validate → Validate) :
    (h.update r f)[r]? = (h[r]?).map f := by
  induction h generalizing r with
  | nil => rfl
  | cons v rest ih =>
    cases r with
    | zero => simp [Heap.update]
    | succ r => simp [Heap.update, ih]

theorem Heap.getElem?_update_other (h : Heap) (r r' : EngineRef) (f : Validate → Validate)
    (hne : r' ≠ r) : (h.update r f)[r']? = h[r']? := by
  induction h generalizing r r' with
  | nil => rfl
  | cons v rest ih =>
    cases r with
    | zero =>
      cases r' with
      | zero => exact absurd rfl hne
      | succ r' => simp [Heap.update]
    | succ r =>
      cases r' with
      | zero => simp [Heap.update]
      | succ r' =>
        have hne' : r' ≠ r := fun h => hne (by rw [h])
        simp [Heap.update, ih r r' hne']

theorem registerCustom_nil (g : Globals) : registerCustom g [] = g := rfl

theorem registerCustom_cons (g : Globals) (r : EngineRef) (kv : String × Func)
    (m : List (String × Func)) (hr : g.validatorInstance = some r) :
    registerCustom g (kv :: m)
      = registerCustom { g with heap := RegisterValidation g.heap r kv.1 kv.2 } m := by
  simp only [registerCustom, List.foldl_cons, hr]

theorem registerCustom_effect (m : List (String × Func)) (g : Globals) (r : EngineRef)
    (hr : g.validatorInstance = some r) :
    (registerCustom g m).validatorInstance = some r ∧
    (registerCustom g m).once = g.once ∧
    (registerCustom g m).heap.length = g.heap.length ∧
    (registerCustom g m).heap.customsOf r = (g.heap.customsOf r).map (fun l => l ++ m) ∧
    (∀ r', r' ≠ r → (registerCustom g m).heap.customsOf r' = g.heap.customsOf r') := by
  induction m generalizing g with
  | nil =>
    refine ⟨hr, rfl, rfl, ?_, fun _ _ => rfl⟩
    rw [registerCustom_nil]
    cases g.heap.customsOf r <;> simp
  | cons kv m ih =>
    rw [registerCustom_cons g r kv m hr]
    obtain ⟨h1, h2, h3, h4, h5⟩ :=
      ih { g with heap := RegisterValidation g.heap r kv.1 kv.2 } hr
    refine ⟨h1, h2, ?_, ?_, ?_⟩
    · rw [h3]
      exact Heap.length_update _ _ _
    · rw [h4]
      simp only [Heap.customsOf, RegisterValidation, Heap.getElem?_update_same]
      cases g.heap[r]? <;> simp
    · intro r' hne
      rw [h5 r' hne]
      simp only [Heap.customsOf, RegisterValidation, Heap.getElem?_update_other _ _ _ _ hne]

theorem initSingleton_override (cfg : Config) (g : Globals) (v : EngineRef)
    (hv : cfg.Validator = some v) :
    initSingleton cfg g
      = registerCustom { g with validatorInstance := some v }
          (cfg.CustomValidations.getD []) := by
  simp only [initSingleton, hv]
  cases cfg.CustomValidations <;> rfl

theorem initSingleton_fresh (cfg : Config) (g : Globals) (hv : cfg.Validator = none) :
    initSingleton cfg g
      = registerCustom
          { g with validatorInstance := some g.heap.length, heap := g.heap ++ [⟨[]⟩] }
          (cfg.CustomValidations.getD []) := by
  simp only [initSingleton, hv, validatorNew]
  cases cfg.CustomValidations <;> rfl

theorem New_after_once (g : Globals) (config : List Config) (h : g.once = true) :
    (New g config).1 = g := by
  simp [New, onceDo, h]

theorem New_before_once (g : Globals) (config : List Config) (h : g.once = false) :
    (New g config).1 = { initSingleton (resolveConfig config) g with once := true } := by
  simp [New, onceDo, h]

theorem New_once (g : Globals) (config : List Config) : (New g config).1.once = true := by
  cases h : g.once with
  | true =>
    rw [New_after_once g config h]
    exact h
  | false =>
    rw [New_before_once g config h]

theorem NewSeq_after_once (cs : List Config) (g : Globals) (h : g.once = true) :
    (NewSeq g cs).1 = g := by
  induction cs with
  | nil => rfl
  | cons c cs ih =>
    simp only [NewSeq, New_after_once g [c] h]
    exact ih

theorem NewSeq_cons_state (g : Globals) (c : Config) (cs : List Config) :
    (NewSeq g (c :: cs)).1 = (New g [c]).1 := by
  simp only [NewSeq]
  exact NewSeq_after_once cs _ (New_once g [c])

theorem NewSeq_handlers (cs : List Config) (g : Globals) :
    (NewSeq g cs).2 = cs.map (fun c => middleware (resolveConfig [c])) := by
  induction cs generalizing g with
  | nil => rfl
  | cons c cs ih =>
    simp only [NewSeq, List.map_cons, ih]
    rfl

theorem resolveConfig_Validator (c : Config) :
    (resolveConfig [c]).Validator = c.Validator := by
  simp only [resolveConfig]
  split <;> rfl

theorem resolveConfig_CustomValidations (c : Config) :
    (resolveConfig [c]).CustomValidations = c.CustomValidations := by
  simp only [resolveConfig]
  split <;> rfl

theorem New_first_override (heap : Heap) (c : Config) (v : EngineRef)
    (hv : c.Validator = some v) :
    (New (Globals.uninitialised heap) [c]).1.validatorInstance = some v ∧
    (New (Globals.uninitialised heap) [c]).1.heap.length = heap.length ∧
    (New (Globals.uninitialised heap) [c]).1.heap.customsOf v
      = (heap.customsOf v).map (fun l => l ++ c.CustomValidations.getD []) ∧
    (∀ r, r ≠ v →
      (New (Globals.uninitialised heap) [c]).1.heap.customsOf r = heap.customsOf r) := by
  rw [New_before_once _ _ rfl,
    initSingleton_override _ _ v ((resolveConfig_Validator c).trans hv),
    resolveConfig_CustomValidations]
  obtain ⟨h1, _, h3, h4, h5⟩ := registerCustom_effect (c.CustomValidations.getD [])
    { Globals.uninitialised heap with validatorInstance := some v } v rfl
  exact ⟨h1, h3, h4, h5⟩

theorem Heap.customsOf_fresh (heap : Heap) :
    (heap ++ [Validate.mk []]).customsOf heap.length = some [] := by
  simp [Heap.customsOf]

theorem Heap.customsOf_old (heap : Heap) (r : EngineRef) (hr : r ≠ heap.length) :
    (heap ++ [Validate.mk []]).customsOf r = heap.customsOf r := by
  simp only [Heap.customsOf]
  rcases Nat.lt_or_gt_of_ne hr with hlt | hgt
  · rw [List.getElem?_append_left hlt]
  · have h1 : (heap ++ [Validate.mk []])[r]? = none := by
      apply List.getElem?_eq_none
      simp
      omega
    have h2 : heap[r]? = none := by
      apply List.getElem?_eq_none
      omega
    rw [h1, h2]

theorem New_first_fresh (heap : Heap) (c : Config) (hv : c.Validator = none) :
    (New (Globals.uninitialised heap) [c]).1.validatorInstance = some heap.length ∧
    (New (Globals.uninitialised heap) [c]).1.heap.length = heap.length + 1 ∧
    (New (Globals.uninitialised heap) [c]).1.heap.customsOf heap.length
      = some (c.CustomValidations.getD []) ∧
    (∀ r, r ≠ heap.length →
      (New (Globals.uninitialised heap) [c]).1.heap.customsOf r = heap.customsOf r) := by
  rw [New_before_once _ _ rfl,
    initSingleton_fresh _ _ ((resolveConfig_Validator c).trans hv),
    resolveConfig_CustomValidations]
  obtain ⟨h1, _, h3, h4, h5⟩ := registerCustom_effect (c.CustomValidations.getD [])
    { Globals.uninitialised heap with
      validatorInstance := some (Globals.uninitialised heap).heap.length,
      heap := (Globals.uninitialised heap).heap ++ [⟨[]⟩] } heap.length rfl
  refine ⟨h1, ?_, ?_, ?_⟩
  · show (registerCustom _ _).heap.length = _
    rw [h3]
    simp [Globals.uninitialised]
  · show (registerCustom _ _).heap.customsOf _ = _
    rw [h4]
    show Option.map _ ((heap ++ [Validate.mk []]).customsOf heap.length) = _
    rw [Heap.customsOf_fresh]
    simp
  · intro r hr
    show (registerCustom _ _).heap.customsOf _ = _
    rw [h5 r hr]
    exact Heap.customsOf_old heap r hr

theorem New_first_instance (heap : Heap) (c : Config) :
    (New (Globals.uninitialised heap) [c]).1.validatorInstance
      = some (c.Validator.getD heap.length) := by
  cases hv : c.Validator with
  | none => exact (New_first_fresh heap c hv).1
  | some v => exact (New_first_override heap c v hv).1

theorem NewSeq_around_state (heap : Heap) (pre post : List Config) (config : Config) :
    (NewSeq (New (NewSeq (Globals.uninitialised heap) pre).1 [config]).1 post).1
      = (New (Globals.uninitialised heap)
          [match pre with
           | [] => config
           | first :: _ => first]).1 := by
  cases pre with
  | nil =>
    exact NewSeq_after_once post _ (New_once _ _)
  | cons p ps =>
    have hp := NewSeq_cons_state (Globals.uninitialised heap) p ps
    have honce : (NewSeq (Globals.uninitialised heap) (p :: ps)).1.once = true := by
      rw [hp]
      exact New_once _ _
    rw [New_after_once _ [config] honce, NewSeq_after_once post _ honce, hp]

theorem middleware_run (cfg : Config) (g : Globals) (next : Ctx → Ctx × Option String)
    (ctx : Ctx)
    (h : (match cfg.Next with
      | some skip => skip ctx
      | none => false) = false) :
    middleware cfg g next ctx = next (Ctx.mk ctx.method ctx.path
      (ctx.locals.set cfg.ContextKey (Any.engine g.validatorInstance))) := by
  simp only [middleware, Ctx.Locals, h]
  rfl

theorem middleware_skip (cfg : Config) (g : Globals) (next : Ctx → Ctx × Option String)
    (ctx : Ctx)
    (h : (match cfg.Next with
      | some skip => skip ctx
      | none => false) = true) :
    middleware cfg g next ctx = next ctx := by
  simp only [middleware, h]
  rfl

/-- C1: from the uninitialised singleton, after `New` was called with each
configuration of a non-empty sequence, the package state is the state after
the first call alone. The singleton is the first configuration's `Validator`
when that is supplied, else the engine created in the first call at a fresh
address; the first configuration's custom rules, and no others, were added to
that engine, and every other engine is as it was; any further `New` call
leaves the state unchanged; and a request through the handler returned by the
`i`-th call, unless that configuration's `Next` skips it, finds that same
singleton pointer stored under the `i`-th configuration's resolved key. -/
theorem NewSeq_first_wins (heap : Heap) (c : Config) (cs : List Config) :
    (NewSeq (Globals.uninitialised heap) (c :: cs)).1 = (New (Globals.uninitialised heap) [c]).1 ∧
    (NewSeq (Globals.uninitialised heap) (c :: cs)).1.once = true ∧
    (NewSeq (Globals.uninitialised heap) (c :: cs)).1.validatorInstance = some (c.Validator.getD heap.length) ∧
    (∀ v, c.Validator = some v →
      (NewSeq (Globals.uninitialised heap) (c :: cs)).1.validatorInstance = some v ∧
      (NewSeq (Globals.uninitialised heap) (c :: cs)).1.heap.length = heap.length ∧
      (NewSeq (Globals.uninitialised heap) (c :: cs)).1.heap.customsOf v
        = (heap.customsOf v).map (fun l => l ++ c.CustomValidations.getD []) ∧
      (∀ r, r ≠ v → (NewSeq (Globals.uninitialised heap) (c :: cs)).1.heap.customsOf r = heap.customsOf r)) ∧
    (c.Validator = none →
      (NewSeq (Globals.uninitialised heap) (c :: cs)).1.validatorInstance = some heap.length ∧
      (NewSeq (Globals.uninitialised heap) (c :: cs)).1.heap.length = heap.length + 1 ∧
      (NewSeq (Globals.uninitialised heap) (c :: cs)).1.heap.customsOf heap.length = some (c.CustomValidations.getD []) ∧
      (∀ r, r ≠ heap.length → (NewSeq (Globals.uninitialised heap) (c :: cs)).1.heap.customsOf r = heap.customsOf r)) ∧
    (∀ config : List Config, (New (NewSeq (Globals.uninitialised heap) (c :: cs)).1 config).1 = (NewSeq (Globals.uninitialised heap) (c :: cs)).1) ∧
    (NewSeq (Globals.uninitialised heap) (c :: cs)).2.length = cs.length + 1 ∧
    (∀ (i : Nat) (ci : Config), (c :: cs)[i]? = some ci →
      ∀ (next : Ctx → Ctx × Option String) (ctx : Ctx),
        ∃ h, (NewSeq (Globals.uninitialised heap) (c :: cs)).2[i]? = some h ∧
          ((match ci.Next with
            | some skip => skip ctx
            | none => false) = false →
            h (NewSeq (Globals.uninitialised heap) (c :: cs)).1 next ctx = next (Ctx.mk ctx.method ctx.path
              (ctx.locals.set (if ci.ContextKey = "" then "validator" else ci.ContextKey)
                (Any.engine (some (c.Validator.getD heap.length)))))) ∧
          ((match ci.Next with
            | some skip => skip ctx
            | none => false) = true →
            h (NewSeq (Globals.uninitialised heap) (c :: cs)).1 next ctx = next ctx)) := by
  have hst := NewSeq_cons_state (Globals.uninitialised heap) c cs
  have honce : (NewSeq (Globals.uninitialised heap) (c :: cs)).1.once = true := by
    rw [hst]
    exact New_once _ _
  have hinst : (NewSeq (Globals.uninitialised heap) (c :: cs)).1.validatorInstance = some (c.Validator.getD heap.length) := by
    rw [hst]
    exact New_first_instance heap c
  refine ⟨hst, honce, hinst, ?_, ?_, ?_, ?_, ?_⟩
  · intro v hv
    rw [hst]
    exact New_first_override heap c v hv
  · intro hv
    rw [hst]
    exact New_first_fresh heap c hv
  · intro config
    exact New_after_once _ config honce
  · rw [NewSeq_handlers]
    simp
  · intro i ci hci next ctx
    refine ⟨middleware (resolveConfig [ci]), ?_, ?_, ?_⟩
    · rw [NewSeq_handlers, List.getElem?_map, hci]
      rfl
    · intro hskip
      have hrun := middleware_run (resolveConfig [ci]) (NewSeq (Globals.uninitialised heap) (c :: cs)).1 next ctx
        (by rw [resolveConfig_Next]; exact hskip)
      rw [resolveConfig_ContextKey, hinst] at hrun
      exact hrun
    · intro hskip
      exact middleware_skip (resolveConfig [ci]) (NewSeq (Globals.uninitialised heap) (c :: cs)).1 next ctx
        (by rw [resolveConfig_Next]; exact hskip)

/-- Witness of C1: two engines exist; the first call overrides with engine 0 and
registers "even", the second asks for engine 1, the key "myValidator" and the
rule "is_alice". Engine 0 stays the singleton, carrying "even" only, engine 1
is untouched, and a request through either handler finds engine 0 in the
store, under that handler's key. -/
theorem NewSeq_first_wins_witness :
    (NewSeq (Globals.uninitialised [⟨[]⟩, ⟨[]⟩]) [firstConfig, secondConfig]).1
      = Globals.mk (some 0) true [⟨[("even", 1)]⟩, ⟨[]⟩] ∧
    (NewSeq (Globals.uninitialised [⟨[]⟩, ⟨[]⟩]) [firstConfig, secondConfig]).1.validatorInstance
      = some 0 ∧
    (NewSeq (Globals.uninitialised [⟨[]⟩, ⟨[]⟩]) [firstConfig, secondConfig]).1.heap.customsOf 0
      = some [("even", 1)] ∧
    (NewSeq (Globals.uninitialised [⟨[]⟩, ⟨[]⟩]) [firstConfig, secondConfig]).1.heap.customsOf 1
      = some [] ∧
    (∃ h, (NewSeq (Globals.uninitialised [⟨[]⟩, ⟨[]⟩]) [firstConfig, secondConfig]).2[0]?
        = some h ∧
      h (NewSeq (Globals.uninitialised [⟨[]⟩, ⟨[]⟩]) [firstConfig, secondConfig]).1
        (fun x => (x, none)) emptyCtx
        = (Ctx.mk "GET" "/" [("validator", Any.engine (some 0))], none)) ∧
    (∃ h, (NewSeq (Globals.uninitialised [⟨[]⟩, ⟨[]⟩]) [firstConfig, secondConfig]).2[1]?
        = some h ∧
      h (NewSeq (Globals.uninitialised [⟨[]⟩, ⟨[]⟩]) [firstConfig, secondConfig]).1
        (fun x => (x, none)) emptyCtx
        = (Ctx.mk "GET" "/" [("myValidator", Any.engine (some 0))], none)) := by
  have hthm := NewSeq_first_wins [⟨[]⟩, ⟨[]⟩] firstConfig [secondConfig]
  obtain ⟨hst, _, hinst, hover, _, _, _, hrun⟩ := hthm
  obtain ⟨_, _, hcust, hother⟩ := hover 0 rfl
  refine ⟨hst.trans rfl, hinst, hcust.trans rfl, (hother 1 (by decide)).trans rfl, ?_, ?_⟩
  · obtain ⟨h, hh, hstore, _⟩ := hrun 0 firstConfig rfl (fun x => (x, none)) emptyCtx
    exact ⟨h, hh, (hstore rfl).trans rfl⟩
  · obtain ⟨h, hh, hstore, _⟩ := hrun 1 secondConfig rfl (fun x => (x, none)) emptyCtx
    exact ⟨h, hh, (hstore rfl).trans rfl⟩

/-- C3: `New` is called with `config` (after the calls `pre`, from the
uninitialised singleton; the calls `post` may follow) and a request on which
the skip predicate of `config` is absent or false runs through the handler
returned for `config`. The handler hands to the next stage a context whose
store holds the package's engine pointer, which is an engine and the one the
first `New` call installed, under the resolved context key, and is unchanged
at every other key; with context key "myValidator" the key "validator" stays
absent. -/
theorem New_stores_engine (heap : Heap) (pre post : List Config) (config : Config)
    (next : Ctx → Ctx × Option String) (c : Ctx)
    (hNext : config.Next = none ∨ ∃ skip, config.Next = some skip ∧ skip c = false) :
    ∃ c1 : Ctx,
      (NewSeq (New (NewSeq (Globals.uninitialised heap) pre).1 [config]).1 post).1.validatorInstance
        = some ((match pre with
          | [] => config.Validator
          | first :: _ => first.Validator).getD heap.length) ∧
      (New (NewSeq (Globals.uninitialised heap) pre).1 [config]).2
        (NewSeq (New (NewSeq (Globals.uninitialised heap) pre).1 [config]).1 post).1 next c = next c1 ∧
      c1.locals.get (if config.ContextKey = "" then "validator" else config.ContextKey) = some (Any.engine (some ((match pre with
          | [] => config.Validator
          | first :: _ => first.Validator).getD heap.length))) ∧
      (∀ k, k ≠ (if config.ContextKey = "" then "validator" else config.ContextKey) → c1.locals.get k = c.locals.get k) ∧
      c1.method = c.method ∧ c1.path = c.path ∧
      (config.ContextKey = "myValidator" → c.locals.get "validator" = none →
        c1.locals.get "validator" = none) := by
  have hskip : (match (resolveConfig [config]).Next with
      | some skip => skip c
      | none => false) = false := by
    rw [resolveConfig_Next]
    rcases hNext with h | ⟨skip, h, hs⟩
    · simp [h]
    · simp [h, hs]
  have hinst : (NewSeq (New (NewSeq (Globals.uninitialised heap) pre).1 [config]).1 post).1.validatorInstance
      = some ((match pre with
          | [] => config.Validator
          | first :: _ => first.Validator).getD heap.length) := by
    rw [NewSeq_around_state, New_first_instance]
    cases pre <;> rfl
  refine ⟨Ctx.mk c.method c.path (c.locals.set (if config.ContextKey = "" then "validator" else config.ContextKey)
      (Any.engine (some ((match pre with
          | [] => config.Validator
          | first :: _ => first.Validator).getD heap.length)))), hinst, ?_, ?_, ?_, rfl, rfl, ?_⟩
  · rw [New_handler, middleware_run _ _ _ _ hskip, resolveConfig_ContextKey, hinst]
  · exact UserData.get_set_same _ _ _
  · intro k hk
    exact UserData.get_set_other _ _ _ _ hk
  · intro hkey habs
    have hne : ("validator" : String) ≠ (if config.ContextKey = "" then "validator" else config.ContextKey) := by
      rw [hkey]; decide
    show (c.locals.set _ _).get "validator" = none
    rw [UserData.get_set_other _ _ _ _ hne]
    exact habs

/-- Witness of C3: the configuration of the test `TestNew_CustomContextKey`, as
the only `New` call of the process, on an empty store: the store then holds
the engine at address 0 under "myValidator" and nothing under "validator". -/
theorem New_stores_engine_witness :
    ∃ c1 : Ctx,
      (New (Globals.uninitialised []) [{ ConfigDefault with ContextKey := "myValidator" }]).1
        = Globals.mk (some 0) true [⟨[]⟩] ∧
      (New (Globals.uninitialised []) [{ ConfigDefault with ContextKey := "myValidator" }]).2
        (New (Globals.uninitialised []) [{ ConfigDefault with ContextKey := "myValidator" }]).1
        (fun x => (x, none)) emptyCtx = (c1, none) ∧
      c1.locals.get "myValidator" = some (Any.engine (some 0)) ∧
      c1.locals.get "validator" = none := by
  obtain ⟨c1, _, hrun, hget, _, _, _, hmy⟩ := New_stores_engine [] [] []
    { ConfigDefault with ContextKey := "myValidator" } (fun x => (x, none)) emptyCtx
    (Or.inl rfl)
  exact ⟨c1, rfl, hrun, hget, hmy rfl rfl⟩

end GoFiberValidator
